import Mathlib

/-!
Verification of the FrogUI navigation core (src/frogos.c) against its
natural-language specification.  C byte strings are modelled as `List Nat`
(byte values), C `int` variables as `Int`, and fallible or undefined
behaviour (division by zero, out-of-bounds array writes) as `Option`.
-/

namespace FrogUI

/-- Byte strings: C `char` arrays are modelled as lists of byte values. -/
abbrev Str := List Nat

/-- Helper turning an ASCII string literal into its byte list. -/
def bytes (s : String) : Str := s.data.map Char.toNat

/-- One menu row, from `MenuEntry` in frogos.c (`{path, name, is_dir}`). -/
structure MenuEntry where
  name : Str
  path : Str
  isDir : Bool
deriving DecidableEq

/-- Modelled from the spec: the fixed visible-window size (`VISIBLE_ENTRIES`,
defined in render.h which is not part of src/).  The spec fixes the page-step
size at 7 and describes a fixed-size visible window; the value 7 is used here,
and every general theorem below is parameterised over an arbitrary window
size `V` so that no result depends on this particular value. -/
def VISIBLE_ENTRIES : Int := 7

/-- Single-step up, frogos.c lines 1834-1845: decrement `selected_index`,
wrapping to `entry_count - 1` at the top, then pull `scroll_offset` up if the
selection moved above it.  Input and output are `(selected_index, scroll_offset)`
with `count = entry_count`. -/
def stepUp (count sel scroll : Int) : Int × Int :=
  let sel' := if sel > 0 then sel - 1 else count - 1
  (sel', if sel' < scroll then sel' else scroll)

/-- Single-step down, frogos.c lines 1847-1859: increment `selected_index`,
wrapping to 0 at the bottom, then push `scroll_offset` down if the selection
moved below the visible window of size `V`. -/
def stepDown (count sel scroll V : Int) : Int × Int :=
  let sel' := if sel < count - 1 then sel + 1 else 0
  (sel', if sel' ≥ scroll + V then sel' - V + 1 else scroll)

/-- Page-step up (L button), frogos.c lines 1861-1873: move up by 7, else wrap
to `entry_count - (7 - selected_index)`. -/
def stepPageUp (count sel scroll : Int) : Int × Int :=
  let sel' := if sel ≥ 7 then sel - 7 else count - (7 - sel)
  (sel', if sel' < scroll then sel' else scroll)

/-- Page-step down (R button), frogos.c lines 1875-1887: move down by 7, else
wrap via `(selected_index + 7) % entry_count`.  C `%` on `int` truncates
towards zero, hence `Int.tmod`; `%` with divisor 0 is undefined behaviour in
C, modelled as `none`. -/
def stepPageDown (count sel scroll V : Int) : Option (Int × Int) :=
  if sel < count - 7 then
    let sel' := sel + 7
    some (sel', if sel' ≥ scroll + V then sel' - V + 1 else scroll)
  else if count = 0 then
    none
  else
    let sel' := Int.tmod (sel + 7) count
    some (sel', if sel' ≥ scroll + V then sel' - V + 1 else scroll)

/-- Scroll adjustment performed by `render_menu`, frogos.c lines 1179-1184:
clamp `scroll_offset` so the selection is inside the visible window. -/
def renderClamp (V sel scroll : Int) : Int :=
  if sel < scroll then sel
  else if sel ≥ scroll + V then sel - V + 1
  else scroll

/-- Viewport invariant of the spec:
`scrollOffset ≤ selectedIndex ≤ scrollOffset + visibleRows - 1`. -/
abbrev viewportOk (V sel scroll : Int) : Prop :=
  scroll ≤ sel ∧ sel ≤ scroll + V - 1

/-- Viewport invariant for a `(selected_index, scroll_offset)` pair after the
render clamp has been applied to it. -/
abbrev afterClamp (V : Int) (p : Int × Int) : Prop :=
  viewportOk V p.1 (renderClamp V p.1 p.2)

/-- Lowercasing of one ASCII byte, as `strcasecmp` does per character. -/
def toLowerByte (b : Nat) : Nat := if 65 ≤ b ∧ b ≤ 90 then b + 32 else b

/-- Case-insensitive equality of two byte strings (`strcasecmp(a, b) == 0`). -/
def caseEq (a b : Str) : Bool := a.map toLowerByte == b.map toLowerByte

/-- Raw directory entry as delivered by `readdir`: the name, the `d_type`
hint (`DT_UNKNOWN = 0`, `DT_DIR = 4` on Linux), and what the `stat` fallback
would report (`stat` succeeded and `S_ISDIR`; a failing `stat` is `false`). -/
structure RawEntry where
  name : Str
  dtype : Nat
  statIsDir : Bool
deriving DecidableEq

/-- is_directory_fast, frogos.c lines 609-621: use `d_type` when available,
fall back to `stat` only for `DT_UNKNOWN`. -/
def is_directory_fast (r : RawEntry) : Bool :=
  if r.dtype ≠ 0 then decide (r.dtype = 4) else r.statIsDir

/-- C `strcmp` on byte strings, sign only; a strict prefix is smaller because
the terminating NUL compares below every nonzero byte. -/
def strcmp : Str → Str → Int
  | [], [] => 0
  | [], _ :: _ => -1
  | _ :: _, [] => 1
  | a :: as, b :: bs => if a < b then -1 else if b < a then 1 else strcmp as bs

/-- Insertion step of the sort: place `e` before the first element it does
not compare above. -/
def insertSorted (e : MenuEntry) : List MenuEntry → List MenuEntry
  | [] => [e]
  | x :: xs => if strcmp e.name x.name ≤ 0 then e :: x :: xs else x :: insertSorted e xs

/-- Deterministic model of `qsort(entries, entry_count, sizeof(MenuEntry),
compare_entries)` (frogos.c line 929) with `compare_entries` comparing names
by `strcmp` (lines 624-628).  `qsort` leaves the relative order of equal keys
unspecified; insertion sort fixes one deterministic total order consistent
with the comparator. -/
def sortEntries : List MenuEntry → List MenuEntry
  | [] => []
  | x :: xs => insertSorted x (sortEntries xs)

def romsPath : Str := bytes (r"/mnt/sda1/ROMS")

def parentRow (path : Str) : MenuEntry := ⟨bytes (r".."), path, true⟩

def recentRow : MenuEntry := ⟨bytes (r"Recent games"), bytes (r"RECENT_GAMES"), true⟩

def favoritesRow : MenuEntry := ⟨bytes (r"Favorites"), bytes (r"FAVORITES"), true⟩

def randomRow : MenuEntry := ⟨bytes (r"Random game"), bytes (r"RANDOM_GAME"), true⟩

def toolsRow : MenuEntry := ⟨bytes (r"Tools"), bytes (r"TOOLS"), true⟩

/-- Empty-directory cache state: `none` models `empty_dirs_loaded == 0`,
`some names` a loaded cache holding `names`. -/
abbrev CacheSt := Option (List Str)

/-- load_empty_dirs_cache, frogos.c lines 165-191: idempotent; the first call
resolves the contents to `resolved`, the list that reading the cache file (or,
when the file is absent, `rebuild_empty_dirs_cache`) produces — a fixed value
while the filesystem and cache file are unchanged. -/
def load_empty_dirs_cache (resolved : List Str) : CacheSt → CacheSt
  | some l => some l
  | none => some resolved

/-- is_in_empty_cache, frogos.c lines 194-201: linear case-insensitive search
of the cached folder names. -/
def is_in_empty_cache (l : List Str) (n : Str) : Bool :=
  l.any (fun m => caseEq m n)

/-- Body of the `readdir` loop of scan_directory, frogos.c lines 870-923:
skip hidden names (leading `.` = byte 46) and the reserved folders frogui /
saves / save (case-insensitively); compute `full_path = path ++ "/" ++ name`;
at root drop files entirely and, when hide-empty is on, load the cache on
first use and drop cached empty folders; append survivors in listing order.
Returns the collected entries together with the cache state. -/
def scanLoop (hideEmpty : Bool) (resolved : List Str) (isRoot : Bool)
    (dirPath : Str) : List RawEntry → CacheSt → List MenuEntry × CacheSt
  | [], st => ([], st)
  | r :: rest, st =>
    if r.name.headD 0 = 46 then scanLoop hideEmpty resolved isRoot dirPath rest st
    else if caseEq r.name (bytes (r"frogui")) || caseEq r.name (bytes (r"saves"))
        || caseEq r.name (bytes (r"save")) then
      scanLoop hideEmpty resolved isRoot dirPath rest st
    else if isRoot && !(is_directory_fast r) then
      scanLoop hideEmpty resolved isRoot dirPath rest st
    else if isRoot && is_directory_fast r && hideEmpty then
      if is_in_empty_cache ((load_empty_dirs_cache resolved st).getD []) r.name then
        scanLoop hideEmpty resolved isRoot dirPath rest (load_empty_dirs_cache resolved st)
      else
        (⟨r.name, dirPath ++ 47 :: r.name, is_directory_fast r⟩ ::
            (scanLoop hideEmpty resolved isRoot dirPath rest
              (load_empty_dirs_cache resolved st)).1,
          (scanLoop hideEmpty resolved isRoot dirPath rest
            (load_empty_dirs_cache resolved st)).2)
    else
      (⟨r.name, dirPath ++ 47 :: r.name, is_directory_fast r⟩ ::
          (scanLoop hideEmpty resolved isRoot dirPath rest st).1,
        (scanLoop hideEmpty resolved isRoot dirPath rest st).2)

/-- In-place element shifting plus write used to insert the synthetic root
rows (frogos.c lines 936-967): shifting positions `i..` down by one and then
writing at slot `i` is insertion at position `i`. -/
def insertAt (i : Nat) (x : MenuEntry) (l : List MenuEntry) : List MenuEntry :=
  l.take i ++ x :: l.drop i

/-- Result of one populate operation: the Entry Store contents, the
empty-directory cache state, and the reset navigation state. -/
structure ScanResult where
  entries : List MenuEntry
  cache : CacheSt
  selectedIndex : Int
  scrollOffset : Int
deriving DecidableEq

/-- scan_directory, frogos.c lines 845-980, over a filesystem `fs` mapping a
path to its raw listing in `readdir` order (`none` when `opendir` fails):
reset navigation state, prepend the parent marker when not at root, return
early when the directory cannot be opened (no error is surfaced), collect
and filter raw entries, sort the whole store by name, and at root insert
Recent games / Favorites / Random game by sequential single-position shifts
and append Tools last.  Allocation is assumed to succeed here; failure of
`ensure_entries_capacity` is modelled separately below. -/
def scan_directory (hideEmpty : Bool) (resolved : List Str)
    (fs : Str → Option (List RawEntry)) (path : Str) (st : CacheSt) : ScanResult :=
  let isRoot := path == romsPath
  let base : List MenuEntry := if isRoot then [] else [parentRow path]
  match fs path with
  | none => ⟨base, st, 0, 0⟩
  | some raws =>
    let res := scanLoop hideEmpty resolved isRoot path raws st
    let sorted := sortEntries (base ++ res.1)
    let final :=
      if isRoot then
        insertAt 2 randomRow (insertAt 1 favoritesRow (insertAt 0 recentRow sorted))
          ++ [toolsRow]
      else sorted
    ⟨final, res.2, 0, 0⟩

/-- Index of the last occurrence of byte `c` in a byte string, the model of
`strrchr` (`none` when `c` does not occur). -/
def strrchrIdx (c : Nat) : Str → Option Nat
  | [] => none
  | b :: rest =>
    match strrchrIdx c rest with
    | some i => some (i + 1)
    | none => if b = c then some 0 else none

/-- Selection-restore loop shared by the parent-marker confirm handler
(frogos.c lines 1959-1970) and the back-button handler (lines 2170-2181):
walk the freshly scanned entries, and at the first row whose name equals the
departed directory set `selected_index` to its index, adjust `scroll_offset`
to keep it visible, and stop.  The carried pair is
`(selected_index, scroll_offset)`, `(0, 0)` after the rescan. -/
def restoreLoop (target : Str) (V : Int) : List MenuEntry → Nat → Int × Int → Int × Int
  | [], _, s => s
  | e :: rest, i, s =>
    if e.name == target then
      ((i : Int),
        if (i : Int) < s.2 then (i : Int)
        else if (i : Int) ≥ s.2 + V then (i : Int) - V + 1
        else s.2)
    else restoreLoop target V rest (i + 1) s

/-- First index of a row with the given name, the specification-side view of
the restore loop. -/
def firstIdxNamed (target : Str) : List MenuEntry → Option Nat
  | [] => none
  | e :: rest =>
    if e.name == target then some 0 else (firstIdxNamed target rest).map (· + 1)

/-- Ascend-one-segment operation of the confirm handler on the parent marker
(frogos.c lines 1946-1971) and of the back button inside a real directory
(lines 2158-2183): find the last `/` (byte 47) in `current_path`; when it
exists and is not the leading character, remember the final segment
(truncated to 255 bytes, the size of the `prev_dir` buffer), truncate the
path, rescan the parent, and restore the selection onto the first row whose
name matches the departed directory.  `none` models the both-handlers
behaviour of doing nothing when there is no usable slash.  The result is
`(parent path, entries, selected_index, scroll_offset, cache)`. -/
def ascendParent (hideEmpty : Bool) (resolved : List Str)
    (fs : Str → Option (List RawEntry)) (V : Int) (currentPath : Str)
    (st : CacheSt) : Option (Str × List MenuEntry × Int × Int × CacheSt) :=
  match strrchrIdx 47 currentPath with
  | none => none
  | some i =>
    if i = 0 then none
    else
      let prevDir := (currentPath.drop (i + 1)).take 255
      let parent := currentPath.take i
      let res := scan_directory hideEmpty resolved fs parent st
      let sc := restoreLoop prevDir V res.entries 0 (res.selectedIndex, res.scrollOffset)
      some (parent, res.entries, sc.1, sc.2, res.cache)

/-- Uppercasing of the first byte as in the A-Z jump (frogos.c lines
1775-1778): only bytes in the range of lowercase ASCII letters change. -/
def normalizeUpper (b : Nat) : Nat := if 97 ≤ b ∧ b ≤ 122 then b - 32 else b

/-- Bucket test of the A-Z picker confirm (frogos.c lines 1780-1796) on the
already-uppercased first byte `ef`: bucket 26 is the digit bucket, bucket 27
the catch-all symbol bucket (not an uppercase letter, not a digit), and
buckets 0-25 match the letter `A + az` (`search_chars[az][0]`). -/
def azMatches (az ef : Nat) : Bool :=
  if az = 26 then decide (48 ≤ ef ∧ ef ≤ 57)
  else if az = 27 then decide (¬((65 ≤ ef ∧ ef ≤ 90) ∨ (48 ≤ ef ∧ ef ≤ 57)))
  else if az < 26 then decide (ef = 65 + az)
  else false

/-- Bucket test applied to an entry: the name's first byte (`name[0]`, byte 0
for an empty name) is normalised to uppercase and tested. -/
def azEntryMatches (az : Nat) (e : MenuEntry) : Bool :=
  azMatches az (normalizeUpper (e.name.headD 0))

/-- Scan loop of the A-Z confirm handler (frogos.c lines 1774-1797): first
matching index, scanning the Entry Store in order. -/
def azConfirmLoop (az : Nat) : List MenuEntry → Nat → Option Nat
  | [], _ => none
  | e :: rest, i => if azEntryMatches az e then some i else azConfirmLoop az rest (i + 1)

/-- A-Z confirm (A button, frogos.c lines 1763-1800): move `selected_index`
to the first matching entry — unchanged when nothing matches — and clear
`az_picker_active`.  Result is `(selected_index, az_picker_active)`. -/
def azConfirm (az : Nat) (es : List MenuEntry) (sel : Int) : Int × Bool :=
  ((azConfirmLoop az es 0).elim sel (fun i => (i : Int)), false)

/-- A-Z cancel (B button, frogos.c lines 1803-1805): only clears
`az_picker_active`. -/
def azCancel : Bool := false

/-- First-occurrence split of `strchr(key, 59)` = the `;` separator: `none`
when the byte does not occur, otherwise the part before the first occurrence
and everything after it. -/
def splitAtFirst (c : Nat) : Str → Option (Str × Str)
  | [] => none
  | b :: rest =>
    if b = c then some ([], rest)
    else (splitAtFirst c rest).map (fun pr => (b :: pr.1, pr.2))

/-- Composite-key parsing of the recents/favorites confirm handler
(frogos.c lines 2031-2047 and 2060-2076): `strchr` for the `;` separator —
on failure the handler returns, aborting the launch, modelled as `none` —
then the core name is copied with its length capped at 255 (the
`sizeof(core_name) - 1` clamp) and the file name is `snprintf`-copied into a
256-byte buffer, hence also truncated to 255 bytes. -/
def parse_launch_key (key : Str) : Option (Str × Str) :=
  (splitAtFirst 59 key).map (fun pr => (pr.1.take 255, pr.2.take 255))

/-- Entry array with its capacity, for the allocation-failure model:
`data` is the live prefix (`entry_count` elements), `cap` the allocated
capacity `entries_capacity`. -/
structure EntriesArr where
  cap : Nat
  data : List MenuEntry
deriving DecidableEq

/-- Capacity-doubling loop of ensure_entries_capacity (frogos.c lines
305-309): double until at least `r`.  The C loop does not terminate when
called with `c = 0`; that case is unreachable because the caller starts from
`INITIAL_ENTRIES_CAPACITY = 64`. -/
def growCap (c r : Nat) : Nat :=
  if _h : c = 0 ∨ r ≤ c then c else growCap (2 * c) r
termination_by r - c
decreasing_by omega

/-- ensure_entries_capacity, frogos.c lines 300-319, with `allocOk` deciding
whether `realloc` succeeds: when it fails the old array and the old capacity
are kept and the function silently returns. -/
def ensure_entries_capacity (allocOk : Bool) (required : Nat) (a : EntriesArr) :
    EntriesArr :=
  if required ≤ a.cap then a
  else if allocOk then ⟨growCap (if a.cap = 0 then 64 else a.cap) required, a.data⟩
  else a

/-- Unchecked write `entries[entry_count] = e; entry_count++` as done by
every populate operation: in bounds it appends; past the allocated capacity
it is an out-of-bounds write — undefined behaviour, modelled as `none`. -/
def appendEntry (e : MenuEntry) (a : EntriesArr) : Option EntriesArr :=
  if a.data.length < a.cap then some ⟨a.cap, a.data ++ [e]⟩ else none

/-- Opening steps of scan_directory under the allocation model (frogos.c
lines 849-861): `entry_count = 0` (destroying the previous count), then for a
non-root path `ensure_entries_capacity(entry_count + 1)` followed by the
unconditional write of the parent-marker entry. -/
def scanPopulateStart (allocOk : Bool) (path : Str) (a : EntriesArr) :
    Option EntriesArr :=
  let a0 : EntriesArr := ⟨a.cap, []⟩
  if path == romsPath then some a0
  else appendEntry (parentRow path) (ensure_entries_capacity allocOk (0 + 1) a0)

/-- Concrete witness filesystem: a root holding two console folders. -/
def demoRootRaws : List RawEntry :=
  [⟨bytes (r"nes"), 4, false⟩, ⟨bytes (r"gb"), 4, false⟩]

def demoFs : Str → Option (List RawEntry) :=
  fun p => if p == romsPath then some demoRootRaws else none

def demoBadPath : Str := bytes (r"/mnt/sda1/ROMS/gb")

/-- Entries of the spec's A-Z jump example, in store order. -/
def demoAzEntries : List MenuEntry :=
  [⟨bytes (r"Banana"), bytes (r"/mnt/sda1/ROMS/gb/Banana"), false⟩,
   ⟨bytes (r"apple"), bytes (r"/mnt/sda1/ROMS/gb/apple"), false⟩,
   ⟨bytes (r"Cherry"), bytes (r"/mnt/sda1/ROMS/gb/Cherry"), false⟩]

theorem renderClamp_window (V s sc : Int) (hV : 1 ≤ V) :
    viewportOk V s (renderClamp V s sc) := by
  unfold renderClamp viewportOk
  split_ifs <;> omega

/-- C1: the claim says that with `entry_count == 0` no stepping is performed,
`selected_index` never becomes out of range and the page-step-forward modulo
is never evaluated with divisor 0.  The code has no such guard: with
`entry_count == 0` (reachable, e.g. after `show_hotkeys_screen` or a failed
root scan) a released R button evaluates `(0 + 7) % 0` — division by zero,
undefined behaviour, modelled as `none` — and a released Up button sets
`selected_index` (and then `scroll_offset`) to `-1`, out of range. -/
theorem step_on_empty_store_is_unguarded :
    stepPageDown 0 0 0 VISIBLE_ENTRIES = none ∧ stepUp 0 0 0 = (-1, -1) := by
  decide

/-- C2 counterexample: the claim says page-step-forward from
`entryCount - 3` lands on index 3.  At `entryCount = 8`,
`selectedIndex = 5 = 8 - 3` the code computes `(5 + 7) % 8 = 4`, not 3. -/
theorem page_step_forward_lands_on_four_not_three :
    stepPageDown 8 5 0 VISIBLE_ENTRIES = some (4, 0) ∧ (4 : Int) ≠ 3 := by
  decide

/-- C2 (amended): for every `entryCount > 7`, page-step-forward from
`selectedIndex = entryCount - 3` sets `selectedIndex` to 4
(`(entryCount - 3 + 7) mod entryCount = 4`). -/
theorem page_step_forward_from_count_sub_three (count scroll V : Int)
    (h : 7 < count) :
    (stepPageDown count (count - 3) scroll V).map Prod.fst = some 4 := by
  unfold stepPageDown
  have h1 : ¬(count - 3 < count - 7) := by omega
  have h2 : count ≠ 0 := by omega
  simp only [h1, if_false, h2, if_neg, if_true]
  have h3 : count - 3 + 7 = 4 + count * 1 := by ring
  have h4 : Int.tmod (count - 3 + 7) count = 4 := by
    have hnn : (0 : Int) ≤ count - 3 + 7 := by omega
    have hb : (0 : Int) ≤ count := by omega
    rw [Int.tmod_eq_emod hnn hb, h3, Int.add_mul_emod_self_left]
    exact Int.emod_eq_of_lt (by omega) (by omega)
  simp [h4]

theorem page_step_forward_from_count_sub_three_witness :
    (7 : Int) < 10 ∧ (stepPageDown 10 (10 - 3) 0 7).map Prod.fst = some 4 :=
  ⟨by decide, page_step_forward_from_count_sub_three 10 0 7 (by decide)⟩

/-- C3 counterexample: the claim says the viewport invariant holds after any
stepping operation.  Starting from the valid state `entry_count = 9`,
`selected_index = 0`, `scroll_offset = 0` (which satisfies the invariant),
a single-step up wraps to index 8 and leaves `scroll_offset = 0`, so
`selected_index ≤ scroll_offset + visibleRows - 1` fails (8 > 6) until the
render clamp runs. -/
theorem viewport_broken_right_after_step :
    viewportOk VISIBLE_ENTRIES 0 0 ∧
    stepUp 9 0 0 = (8, 0) ∧
    ¬ viewportOk VISIBLE_ENTRIES 8 0 := by
  refine ⟨by decide, by decide, ?_⟩
  intro h
  exact absurd h.2 (by decide)

/-- C3 (amended): the raw stepping operations can leave the viewport invariant
transiently violated, but `render_menu` runs in the same frame (a release edge
always sets `input_changed`) and its scroll clamp unconditionally restores
`scrollOffset ≤ selectedIndex ≤ scrollOffset + visibleRows - 1`; hence the
invariant holds after any step once the frame renders, and immediately after
any render of the listing, for any window size `V ≥ 1`. -/
theorem step_then_render_clamp_viewport
    (V count sel scroll s sc p1 p2 : Int) (hV : 1 ≤ V)
    (_hp : stepPageDown count sel scroll V = some (p1, p2)) :
    afterClamp V (stepUp count sel scroll) ∧
    afterClamp V (stepDown count sel scroll V) ∧
    afterClamp V (stepPageUp count sel scroll) ∧
    afterClamp V (p1, p2) ∧
    viewportOk V s (renderClamp V s sc) := by
  refine ⟨?_, ?_, ?_, ?_, renderClamp_window V s sc hV⟩ <;>
    exact renderClamp_window V _ _ hV

theorem step_then_render_clamp_viewport_witness :
    ((1 : Int) ≤ 7 ∧ stepPageDown 9 0 0 7 = some (7, 1)) ∧
    (afterClamp 7 (stepUp 9 0 0) ∧
     afterClamp 7 (stepDown 9 0 0 7) ∧
     afterClamp 7 (stepPageUp 9 0 0) ∧
     afterClamp 7 ((7 : Int), (1 : Int)) ∧
     viewportOk 7 8 (renderClamp 7 8 0)) := by
  refine ⟨⟨by decide, by decide⟩, ?_⟩
  exact step_then_render_clamp_viewport 7 9 0 0 8 0 7 1 (by decide) (by decide)

theorem load_empty_dirs_cache_idem (resolved : List Str) (st : CacheSt) :
    load_empty_dirs_cache resolved (load_empty_dirs_cache resolved st)
      = load_empty_dirs_cache resolved st := by
  cases st <;> rfl

theorem scanLoop_snd_cases (hideEmpty : Bool) (resolved : List Str) (isRoot : Bool)
    (dirPath : Str) (raws : List RawEntry) :
    ∀ st : CacheSt,
      (scanLoop hideEmpty resolved isRoot dirPath raws st).2 = st ∨
      (scanLoop hideEmpty resolved isRoot dirPath raws st).2
        = load_empty_dirs_cache resolved st := by
  induction raws with
  | nil => intro st; left; rfl
  | cons r rest ih =>
    intro st
    simp only [scanLoop]
    split_ifs with h1 h2 h3 h4 h5
    · exact ih st
    · exact ih st
    · exact ih st
    · rcases ih (load_empty_dirs_cache resolved st) with h | h
      · right; exact h
      · right; rw [h, load_empty_dirs_cache_idem]
    · rcases ih (load_empty_dirs_cache resolved st) with h | h
      · right; exact h
      · right; rw [h, load_empty_dirs_cache_idem]
    · exact ih st

theorem scanLoop_fst_load (hideEmpty : Bool) (resolved : List Str) (isRoot : Bool)
    (dirPath : Str) (raws : List RawEntry) :
    ∀ st : CacheSt,
      (scanLoop hideEmpty resolved isRoot dirPath raws
          (load_empty_dirs_cache resolved st)).1
        = (scanLoop hideEmpty resolved isRoot dirPath raws st).1 := by
  induction raws with
  | nil => intro st; cases st <;> rfl
  | cons r rest ih =>
    intro st
    cases st with
    | some l => rfl
    | none =>
      simp only [scanLoop, load_empty_dirs_cache]
      split_ifs with h1 h2 h3 h4 h5
      · exact ih none
      · exact ih none
      · exact ih none
      · rfl
      · rfl
      · exact congrArg (List.cons _) (ih none)

theorem insertAt_chain (l : List MenuEntry) :
    insertAt 2 randomRow (insertAt 1 favoritesRow (insertAt 0 recentRow l))
        ++ [toolsRow]
      = recentRow :: favoritesRow :: randomRow :: (l ++ [toolsRow]) := by
  simp [insertAt]

/-- C4: scanning the root collection twice in a row over an unchanged
filesystem (same `fs`, same resolved cache contents) yields identical Entry
Stores, and the listing begins with Recent games, Favorites, Random game at
indices 0, 1, 2 and ends with Tools.  The only state the first scan can
change is loading the empty-directory cache, and the loaded contents are what
every lookup of the first scan already used. -/
theorem root_scan_idempotent_and_synthetic_rows
    (hideEmpty : Bool) (resolved : List Str) (fs : Str → Option (List RawEntry))
    (st : CacheSt) (raws : List RawEntry) (hfs : fs romsPath = some raws) :
    (scan_directory hideEmpty resolved fs romsPath
        (scan_directory hideEmpty resolved fs romsPath st).cache).entries
      = (scan_directory hideEmpty resolved fs romsPath st).entries ∧
    (scan_directory hideEmpty resolved fs romsPath st).entries.take 3
      = [recentRow, favoritesRow, randomRow] ∧
    (scan_directory hideEmpty resolved fs romsPath st).entries.getLast?
      = some toolsRow := by
  unfold scan_directory
  rw [hfs]
  simp only [beq_self_eq_true, if_true, reduceIte, List.nil_append]
  refine ⟨?_, ?_, ?_⟩
  · rcases scanLoop_snd_cases hideEmpty resolved true romsPath raws st with h | h
    · rw [h]
    · rw [h, scanLoop_fst_load]
  · rw [insertAt_chain]
    rfl
  · rw [insertAt_chain]
    have : recentRow :: favoritesRow :: randomRow ::
        (sortEntries (scanLoop hideEmpty resolved true romsPath raws st).1
          ++ [toolsRow])
        = (recentRow :: favoritesRow :: randomRow ::
            sortEntries (scanLoop hideEmpty resolved true romsPath raws st).1)
          ++ [toolsRow] := by
      simp
    rw [this, List.getLast?_concat]

theorem root_scan_idempotent_and_synthetic_rows_witness :
    demoFs romsPath = some demoRootRaws ∧
    ((scan_directory true [] demoFs romsPath
        (scan_directory true [] demoFs romsPath none).cache).entries
      = (scan_directory true [] demoFs romsPath none).entries ∧
    (scan_directory true [] demoFs romsPath none).entries.take 3
      = [recentRow, favoritesRow, randomRow] ∧
    (scan_directory true [] demoFs romsPath none).entries.getLast?
      = some toolsRow) :=
  ⟨by decide, root_scan_idempotent_and_synthetic_rows true [] demoFs none
    demoRootRaws (by decide)⟩

/-- C8: a path whose directory cannot be opened (`fs path = none`) yields
zero real entries — only the parent-marker row, present because the path is
not the root — with reset navigation state and untouched cache; the populate
is total, so no error is propagated to the caller. -/
theorem scan_unopenable_keeps_parent_marker_only
    (hideEmpty : Bool) (resolved : List Str) (fs : Str → Option (List RawEntry))
    (path : Str) (st : CacheSt) (hroot : path ≠ romsPath) (hfs : fs path = none) :
    scan_directory hideEmpty resolved fs path st
      = ⟨[parentRow path], st, 0, 0⟩ := by
  unfold scan_directory
  rw [hfs]
  have h : (path == romsPath) = false := by
    simpa using hroot
  simp [h]

theorem scan_unopenable_keeps_parent_marker_only_witness :
    demoBadPath ≠ romsPath ∧
    scan_directory true [] (fun _ => none) demoBadPath none
      = ⟨[parentRow demoBadPath], none, 0, 0⟩ :=
  ⟨by decide, scan_unopenable_keeps_parent_marker_only true [] (fun _ => none)
    demoBadPath none (by decide) rfl⟩

/-- C10: when the root collection directory itself cannot be opened, the
Entry Store ends up completely empty — in particular the four synthetic rows
are not inserted, because `scan_directory` returns before the synthetic-row
insertion step. -/
theorem scan_root_unopenable_yields_empty_store
    (hideEmpty : Bool) (resolved : List Str) (fs : Str → Option (List RawEntry))
    (st : CacheSt) (hfs : fs romsPath = none) :
    (scan_directory hideEmpty resolved fs romsPath st).entries = [] ∧
    (scan_directory hideEmpty resolved fs romsPath st).entries.length = 0 := by
  unfold scan_directory
  rw [hfs]
  simp

theorem scan_root_unopenable_yields_empty_store_witness :
    (fun _ : Str => (none : Option (List RawEntry))) romsPath = none ∧
    ((scan_directory true [] (fun _ => none) romsPath none).entries = [] ∧
     (scan_directory true [] (fun _ => none) romsPath none).entries.length = 0) :=
  ⟨rfl, scan_root_unopenable_yields_empty_store true [] (fun _ => none) none rfl⟩

theorem splitAtFirst_not_mem (c : Nat) :
    ∀ s : Str, c ∉ s → splitAtFirst c s = none := by
  intro s
  induction s with
  | nil => intro _; rfl
  | cons b rest ih =>
    intro h
    simp only [List.mem_cons, not_or] at h
    have hbc : ¬ b = c := fun hh => h.1 hh.symm
    simp [splitAtFirst, hbc, ih h.2]

theorem splitAtFirst_append (c : Nat) :
    ∀ pre post : Str, c ∉ pre → splitAtFirst c (pre ++ c :: post) = some (pre, post) := by
  intro pre post
  induction pre with
  | nil => intro _; simp [splitAtFirst]
  | cons b q ih =>
    intro h
    simp only [List.mem_cons, not_or] at h
    have hbc : ¬ b = c := fun hh => h.1 hh.symm
    simp [splitAtFirst, hbc, ih h.2]

/-- C7: confirming a recents or favorites row splits the composite path key
at its first `;` (byte 59) into the core identifier and the file name (each
copied into a 256-byte buffer, hence truncated to 255 bytes); when the key
lacks the separator the handler returns without launching and without
touching any missing field, modelled by `none`. -/
theorem launch_key_split_and_abort
    (pre post key2 : Str) (hpre : 59 ∉ pre) (hnosep : 59 ∉ key2) :
    parse_launch_key (pre ++ 59 :: post) = some (pre.take 255, post.take 255) ∧
    parse_launch_key key2 = none ∧
    parse_launch_key (bytes (r"Gambatte;SuperMario"))
      = some (bytes (r"Gambatte"), bytes (r"SuperMario")) := by
  refine ⟨?_, ?_, by decide⟩
  · unfold parse_launch_key
    rw [splitAtFirst_append 59 pre post hpre]
    rfl
  · unfold parse_launch_key
    rw [splitAtFirst_not_mem 59 key2 hnosep]
    rfl

theorem launch_key_split_and_abort_witness :
    (59 ∉ bytes (r"Gambatte") ∧ 59 ∉ bytes (r"NoSeparator")) ∧
    (parse_launch_key (bytes (r"Gambatte") ++ 59 :: bytes (r"SuperMario"))
        = some ((bytes (r"Gambatte")).take 255, (bytes (r"SuperMario")).take 255) ∧
     parse_launch_key (bytes (r"NoSeparator")) = none ∧
     parse_launch_key (bytes (r"Gambatte;SuperMario"))
        = some (bytes (r"Gambatte"), bytes (r"SuperMario"))) :=
  ⟨⟨by decide, by decide⟩,
    launch_key_split_and_abort (bytes (r"Gambatte")) (bytes (r"SuperMario"))
      (bytes (r"NoSeparator")) (by decide) (by decide)⟩

/-- C9: the claim says a failed capacity growth leaves the previous,
still-valid Entry Store contents and entry count untouched rather than
corrupting state.  `ensure_entries_capacity` itself preserves the array and
capacity on failure (first conjunct, matching its own comment), but the
populate operations never check the outcome and write
`entries[entry_count]` unconditionally: on a fresh store (`entries == NULL`,
capacity 0) with a failing allocation, scan_directory's very first write —
the parent marker of a non-root scan — goes out of bounds, which is
undefined behaviour corrupting state, modelled as `none` (second conjunct);
the previous entry count was moreover already destroyed by the initial
`entry_count = 0`. -/
theorem capacity_growth_failure_corrupts :
    ensure_entries_capacity false 1 ⟨0, []⟩ = ⟨0, []⟩ ∧
    scanPopulateStart false demoBadPath ⟨0, []⟩ = none := by
  decide

theorem azConfirmLoop_eq_none (az : Nat) :
    ∀ (es : List MenuEntry) (i : Nat), (∀ e ∈ es, azEntryMatches az e = false) →
      azConfirmLoop az es i = none := by
  intro es
  induction es with
  | nil => intro i _; rfl
  | cons e rest ih =>
    intro i h
    have he : azEntryMatches az e = false := h e (by simp)
    simp only [azConfirmLoop, he, Bool.false_eq_true, if_false]
    exact ih (i + 1) (fun x hx => h x (by simp [hx]))

theorem azConfirmLoop_first (az : Nat) :
    ∀ (es : List MenuEntry) (j i : Nat) (hj : j < es.length),
      azEntryMatches az (es.get ⟨j, hj⟩) = true →
      (∀ k (hk : k < j), azEntryMatches az (es.get ⟨k, Nat.lt_trans hk hj⟩) = false) →
      azConfirmLoop az es i = some (i + j) := by
  intro es
  induction es with
  | nil => intro j i hj; simp at hj
  | cons e rest ih =>
    intro j i hj hm hf
    cases j with
    | zero =>
      have he : azEntryMatches az e = true := by simpa using hm
      simp [azConfirmLoop, he]
    | succ n =>
      have he : azEntryMatches az e = false := by
        have h0 := hf 0 (Nat.succ_pos n)
        simpa using h0
      simp only [azConfirmLoop, he, Bool.false_eq_true, if_false]
      have hn : n < rest.length := by simpa using hj
      have hm' : azEntryMatches az (rest.get ⟨n, hn⟩) = true := by simpa using hm
      have hf' : ∀ k (hk : k < n),
          azEntryMatches az (rest.get ⟨k, Nat.lt_trans hk hn⟩) = false := by
        intro k hk
        have := hf (k + 1) (Nat.succ_lt_succ hk)
        simpa using this
      rw [ih n (i + 1) hn hm' hf']
      congr 1
      omega

/-- C6: confirming the A-Z overlay scans the Entry Store in order and moves
the selection to the first entry whose name's first byte, normalised to
uppercase, falls in the chosen bucket (letter buckets match their letter,
bucket 26 the digits, bucket 27 anything that is neither an uppercase letter
nor a digit after normalisation); with no matching entry the selection is
unchanged; both confirm and cancel clear `az_picker_active`; and on
`{Banana, apple, Cherry}` confirming bucket A selects index 1. -/
theorem az_confirm_selects_first_match
    (az : Nat) (es : List MenuEntry) (sel : Int) (j : Nat) (hj : j < es.length)
    (hm : azEntryMatches az (es.get ⟨j, hj⟩) = true)
    (hf : ∀ k (hk : k < j), azEntryMatches az (es.get ⟨k, Nat.lt_trans hk hj⟩) = false)
    (es2 : List MenuEntry) (sel2 : Int) (hnone : ∀ e ∈ es2, azEntryMatches az e = false) :
    azConfirm az es sel = ((j : Int), false) ∧
    azConfirm az es2 sel2 = (sel2, false) ∧
    azCancel = false ∧
    azConfirm 0 demoAzEntries 0 = (1, false) := by
  refine ⟨?_, ?_, rfl, by decide⟩
  · unfold azConfirm
    rw [azConfirmLoop_first az es j 0 hj hm hf]
    simp
  · unfold azConfirm
    rw [azConfirmLoop_eq_none az es2 0 hnone]
    rfl

theorem az_confirm_selects_first_match_witness :
    ((1 : Nat) < demoAzEntries.length ∧
     azEntryMatches 0 (demoAzEntries.get ⟨1, by decide⟩) = true) ∧
    (azConfirm 0 demoAzEntries 0 = (((1 : Nat) : Int), false) ∧
     azConfirm 0 [] 5 = (5, false) ∧
     azCancel = false ∧
     azConfirm 0 demoAzEntries 0 = (1, false)) :=
  ⟨⟨by decide, by decide⟩,
    az_confirm_selects_first_match 0 demoAzEntries 0 1 (by decide) (by decide)
      (by decide) [] 5 (by simp)⟩

theorem strrchrIdx_eq_none (c : Nat) :
    ∀ s : Str, c ∉ s → strrchrIdx c s = none := by
  intro s
  induction s with
  | nil => intro _; rfl
  | cons b rest ih =>
    intro h
    simp only [List.mem_cons, not_or] at h
    have hbc : ¬ b = c := fun hh => h.1 hh.symm
    simp [strrchrIdx, ih h.2, hbc]

theorem strrchrIdx_append_sep (c : Nat) (X : Str) (hX : c ∉ X) :
    ∀ p : Str, strrchrIdx c (p ++ c :: X) = some p.length := by
  intro p
  induction p with
  | nil =>
    simp [strrchrIdx, strrchrIdx_eq_none c X hX]
  | cons b q ih =>
    simp [strrchrIdx, ih]

theorem take_length_append_sep (c : Nat) (X : Str) :
    ∀ p : Str, (p ++ c :: X).take p.length = p := by
  intro p
  induction p with
  | nil => rfl
  | cons b q _ => simp

theorem drop_length_append_sep (c : Nat) (X : Str) :
    ∀ p : Str, (p ++ c :: X).drop (p.length + 1) = X := by
  intro p
  induction p with
  | nil => rfl
  | cons b q _ => simp

theorem take_of_length_le_listnat (X : Str) :
    ∀ n : Nat, X.length ≤ n → X.take n = X := by
  induction X with
  | nil => intro n _; simp
  | cons b q ih =>
    intro n h
    cases n with
    | zero => simp at h
    | succ m =>
      simp only [List.length_cons, Nat.succ_le_succ_iff] at h
      simp [List.take_succ_cons, ih m h]

theorem scan_directory_selectedIndex (hideEmpty : Bool) (resolved : List Str)
    (fs : Str → Option (List RawEntry)) (path : Str) (st : CacheSt) :
    (scan_directory hideEmpty resolved fs path st).selectedIndex = 0 := by
  unfold scan_directory
  split <;> rfl

theorem scan_directory_scrollOffset (hideEmpty : Bool) (resolved : List Str)
    (fs : Str → Option (List RawEntry)) (path : Str) (st : CacheSt) :
    (scan_directory hideEmpty resolved fs path st).scrollOffset = 0 := by
  unfold scan_directory
  split <;> rfl

theorem restoreLoop_found (target : Str) (V : Int) :
    ∀ (es : List MenuEntry) (j i : Nat) (s : Int × Int),
      firstIdxNamed target es = some j →
      restoreLoop target V es i s =
        (((i + j : Nat) : Int),
          if ((i + j : Nat) : Int) < s.2 then ((i + j : Nat) : Int)
          else if ((i + j : Nat) : Int) ≥ s.2 + V then ((i + j : Nat) : Int) - V + 1
          else s.2) := by
  intro es
  induction es with
  | nil => intro j i s h; simp [firstIdxNamed] at h
  | cons e rest ih =>
    intro j i s h
    by_cases hname : (e.name == target) = true
    · simp only [firstIdxNamed, hname, if_true, Option.some.injEq, reduceIte] at h
      subst h
      simp [restoreLoop, hname]
    · simp only [firstIdxNamed, hname, Bool.false_eq_true, if_false, reduceIte] at h
      obtain ⟨j', hj', hjj⟩ : ∃ j', firstIdxNamed target rest = some j' ∧ j = j' + 1 := by
        cases hfi : firstIdxNamed target rest with
        | none => rw [hfi] at h; simp at h
        | some k => rw [hfi] at h; simp at h; exact ⟨k, rfl, h.symm⟩
      subst hjj
      simp only [restoreLoop, hname, Bool.false_eq_true, if_false, reduceIte]
      rw [ih j' (i + 1) s hj']
      have harith : i + 1 + j' = i + (j' + 1) := by omega
      rw [harith]

theorem firstIdxNamed_get (target : Str) :
    ∀ (es : List MenuEntry) (j : Nat), firstIdxNamed target es = some j →
      ∃ h : j < es.length, (es.get ⟨j, h⟩).name = target := by
  intro es
  induction es with
  | nil => intro j h; simp [firstIdxNamed] at h
  | cons e rest ih =>
    intro j h
    by_cases hname : (e.name == target) = true
    · simp only [firstIdxNamed, hname, if_true, Option.some.injEq, reduceIte] at h
      subst h
      exact ⟨by simp, by simpa using eq_of_beq hname⟩
    · simp only [firstIdxNamed, hname, Bool.false_eq_true, if_false, reduceIte] at h
      obtain ⟨j', hj', hjj⟩ : ∃ j', firstIdxNamed target rest = some j' ∧ j = j' + 1 := by
        cases hfi : firstIdxNamed target rest with
        | none => rw [hfi] at h; simp at h
        | some k => rw [hfi] at h; simp at h; exact ⟨k, rfl, h.symm⟩
      subst hjj
      obtain ⟨hlt, hn⟩ := ih j' hj'
      exact ⟨by simpa using Nat.succ_lt_succ hlt, by simpa using hn⟩

/-- C5: after entering the real subdirectory named `X` from the listing of
parent `p` (which sets `current_path` to `p ++ "/" ++ X`, the `full_path`
scan_directory built for that row) and then ascending — confirming the `..`
row or pressing back inside a real directory, both of which run the same
truncate-rescan-restore code — the parent is rescanned and, provided a row
named `X` (no slash in it, at most 255 bytes as the spec's data model
guarantees for display names) still exists there, `selected_index` is
restored to the first such row, with `scroll_offset` adjusted so the row is
inside the visible window. -/
theorem ascend_restores_selection
    (hideEmpty : Bool) (resolved : List Str) (fs : Str → Option (List RawEntry))
    (st : CacheSt) (V : Int) (p X : Str) (j : Nat)
    (hp : p ≠ []) (hX : 47 ∉ X) (hXlen : X.length ≤ 255) (hV : 1 ≤ V)
    (hfind : firstIdxNamed X (scan_directory hideEmpty resolved fs p st).entries
      = some j) :
    ascendParent hideEmpty resolved fs V (p ++ 47 :: X) st
      = some (p, (scan_directory hideEmpty resolved fs p st).entries, ((j : Nat) : Int),
          (if ((j : Nat) : Int) ≥ V then ((j : Nat) : Int) - V + 1 else 0),
          (scan_directory hideEmpty resolved fs p st).cache) ∧
    (if ((j : Nat) : Int) ≥ V then ((j : Nat) : Int) - V + 1 else 0) ≤ ((j : Nat) : Int) ∧
    ((j : Nat) : Int) ≤ (if ((j : Nat) : Int) ≥ V then ((j : Nat) : Int) - V + 1 else 0)
      + V - 1 ∧
    ∃ h : j < (scan_directory hideEmpty resolved fs p st).entries.length,
      ((scan_directory hideEmpty resolved fs p st).entries.get ⟨j, h⟩).name = X := by
  have hlen : ¬ p.length = 0 := by
    simpa [List.length_eq_zero] using hp
  have htake : ((p ++ 47 :: X).drop (p.length + 1)).take 255 = X := by
    rw [drop_length_append_sep 47 X p]
    exact take_of_length_le_listnat X 255 hXlen
  refine ⟨?_, ?_, ?_, firstIdxNamed_get X _ j hfind⟩
  · simp only [ascendParent, strrchrIdx_append_sep 47 X hX p, hlen, if_false,
      htake, take_length_append_sep 47 X p, reduceIte]
    rw [restoreLoop_found X V (scan_directory hideEmpty resolved fs p st).entries
      j 0 _ hfind]
    simp only [scan_directory_scrollOffset, Nat.zero_add]
    have h0 : ¬ ((j : Nat) : Int) < 0 := by omega
    rw [if_neg h0, zero_add]
  · split <;> omega
  · have hjpos : (0 : Int) ≤ ((j : Nat) : Int) := Int.natCast_nonneg j
    split <;> omega

theorem ascend_restores_selection_witness :
    (romsPath ≠ ([] : Str) ∧ 47 ∉ bytes (r"gb") ∧ (bytes (r"gb")).length ≤ 255 ∧
     (1 : Int) ≤ 7 ∧
     firstIdxNamed (bytes (r"gb")) (scan_directory true [] demoFs romsPath none).entries
       = some 3) ∧
    (ascendParent true [] demoFs 7 (romsPath ++ 47 :: bytes (r"gb")) none
      = some (romsPath, (scan_directory true [] demoFs romsPath none).entries,
          ((3 : Nat) : Int),
          (if ((3 : Nat) : Int) ≥ 7 then ((3 : Nat) : Int) - 7 + 1 else 0),
          (scan_directory true [] demoFs romsPath none).cache) ∧
     (if ((3 : Nat) : Int) ≥ 7 then ((3 : Nat) : Int) - 7 + 1 else 0) ≤ ((3 : Nat) : Int) ∧
     ((3 : Nat) : Int) ≤ (if ((3 : Nat) : Int) ≥ 7 then ((3 : Nat) : Int) - 7 + 1 else 0)
       + 7 - 1 ∧
     ∃ h : 3 < (scan_directory true [] demoFs romsPath none).entries.length,
       ((scan_directory true [] demoFs romsPath none).entries.get ⟨3, h⟩).name
         = bytes (r"gb")) :=
  ⟨⟨by decide, by decide, by decide, by decide, by decide⟩,
    ascend_restores_selection true [] demoFs none 7 romsPath (bytes (r"gb")) 3
      (by decide) (by decide) (by decide) (by decide) (by decide)⟩

end FrogUI
